import Mathlib

/-!
Shallow embedding of `src/app.py` (a Dash dashboard over the NYC street-tree
census table) and proofs about its two callbacks and its data-load step.

Modelling conventions:
* A pandas frame is a `List` of records; the loaded table `nyctrees` is a
  `List Row` parameter of every derived definition (it is fetched from a URL
  at startup, so its contents are not fixed here).
* pandas `groupby` sorts its keys in ascending string order (by code point);
  this is modelled with `List.insertionSort` over deduplicated keys using the
  code-point comparison `strLe`.
* Machine floats are modelled by `ℚ`; `round(x, 2)` is modelled by `round2`
  (ties rounded half-up; no claim below depends on tie direction).
* Raising an exception (pandas `KeyError` from a failed `.loc` lookup, or the
  `ValueError` that `pivot` raises on duplicate index/column pairs) is
  modelled by an `Option` result of `none`.
-/

/-- One row of the loaded `nyctrees` table: pre-aggregated counts per
(species, borough, health, steward) combination. -/
structure Row where
  spc_common : String
  boroname : String
  health : String
  steward : String
  count_tree_id : Nat
deriving Repr, DecidableEq

/-- One fetched JSON row, before `dropna`: every field may be missing. -/
structure RawRow where
  spc_common : Option String
  boroname : Option String
  health : Option String
  steward : Option String
  count_tree_id : Option Nat
deriving Repr, DecidableEq

/-- A raw row is complete when none of its five fields is null. -/
def rowComplete (r : RawRow) : Bool :=
  r.spc_common.isSome && r.boroname.isSome && r.health.isSome &&
    r.steward.isSome && r.count_tree_id.isSome

/-- Line 29, `nyctrees.dropna()`: keep exactly the rows with no null field. -/
def dropna : List RawRow → List RawRow
  | [] => []
  | r :: rs => if rowComplete r then r :: dropna rs else dropna rs

/-- Python `str.title()` on a list of characters: an alphabetic character is
uppercased when the previous character is not alphabetic and lowercased
otherwise; non-alphabetic characters pass through. The `Bool` argument records
whether the previous character was alphabetic. -/
def pyTitleAux : Bool → List Char → List Char
  | _, [] => []
  | prevAlpha, c :: cs =>
    (if c.isAlpha then (if prevAlpha then c.toLower else c.toUpper) else c) ::
      pyTitleAux c.isAlpha cs

/-- Python `str.title()` (line 30 applies it to the species column). -/
def pyTitle (s : String) : String := ⟨pyTitleAux false s.data⟩

/-- Line 31: `replace(["\x27Schubert\x27 Chokecherry"], "Schubert Chokecherry")`
on the species column; pandas `replace` with a scalar is exact-match. -/
def schubertFix (s : String) : String :=
  if s = "\x27Schubert\x27 Chokecherry" then "Schubert Chokecherry" else s

/-- The full species normalization of lines 30 and 31. -/
def normSpecies (s : String) : String := schubertFix (pyTitle s)

/-- Lines 32-35: the chained exact-match `replace` calls on the steward
column, applied in source order. -/
def stewardRelabel (s : String) : String :=
  let s1 := if s = "None" then "0" else s
  let s2 := if s1 = "1or2" then "1-2" else s1
  let s3 := if s2 = "3or4" then "3-4" else s2
  if s3 = "4orMore" then "4+" else s3

/-- Extract the concrete fields of a complete raw row (defaults are never
reached on rows that survived `dropna`). -/
def extract (r : RawRow) : Row :=
  ⟨r.spc_common.getD "", r.boroname.getD "", r.health.getD "",
    r.steward.getD "", r.count_tree_id.getD 0⟩

/-- Column-wise normalization of lines 30-35 applied to one row. -/
def normalizeRow (r : Row) : Row :=
  { r with spc_common := normSpecies r.spc_common,
           steward := stewardRelabel r.steward }

/-- The whole data-tidying block (lines 29-35): drop nulls, then normalize
the species and steward columns. -/
def loadTable (raws : List RawRow) : List Row :=
  (dropna raws).map (fun r => normalizeRow (extract r))

/-- Code-point lexicographic string comparison on character lists: the order
pandas uses when sorting group keys. -/
def strLeAux : List Char → List Char → Bool
  | [], _ => true
  | _ :: _, [] => false
  | a :: as, b :: bs =>
    if a.toNat < b.toNat then true
    else if b.toNat < a.toNat then false
    else strLeAux as bs

/-- Code-point lexicographic comparison of strings. -/
def strLe (a b : String) : Bool := strLeAux a.data b.data

/-- The comparison `strLe` as a relation, for use with `List.insertionSort`. -/
def strLeRel (a b : String) : Prop := strLe a b = true

instance : DecidableRel strLeRel :=
  fun a b => inferInstanceAs (Decidable (strLe a b = true))

/-- Lines 80-81 and 112-113: the boolean-mask selection
`nyctrees[(boroname == borough) & (spc_common == species)]`. -/
def filterSel (t : List Row) (b s : String) : List Row :=
  t.filter (fun r => r.boroname == b && r.spc_common == s)

/-- The total count of a frame (`sum(df[count_tree_id])` on line 83). -/
def sumCounts (df : List Row) : Nat := (df.map Row.count_tree_id).sum

/-- Per-health-state count sum (one `groupby(health).sum()` group). -/
def healthSum (df : List Row) (h : String) : Nat :=
  sumCounts (df.filter (fun r => r.health == h))

/-- The ascending sorted list of distinct values of a column: the index that
pandas `groupby` produces. -/
def uniqueSorted (l : List String) : List String :=
  List.insertionSort strLeRel l.dedup

/-- Two-decimal rounding, modelling `round(x, 2)` over `ℚ`. -/
def round2 (q : ℚ) : ℚ := (round (100 * q) : ℤ) / 100

/-- Line 83, inner part: `df.groupby(health).sum()[count_tree_id]` as an
association list in ascending health order. -/
def groupbyHealth (df : List Row) : List (String × Nat) :=
  (uniqueSorted (df.map Row.health)).map (fun h => (h, healthSum df h))

/-- Line 83: divide each per-health sum by the total and round; the pairs are
in ascending health order, as after `reset_index()`. -/
def healthPropBase (df : List Row) : List (String × ℚ) :=
  (groupbyHealth df).map (fun p => (p.1, round2 ((p.2 : ℚ) / (sumCounts df : ℚ))))

/-- Attach the `RangeIndex` labels 0,1,... that `reset_index()` creates, from
a given starting label. -/
def withLabels : Nat → List (String × ℚ) → List (Nat × String × ℚ)
  | _, [] => []
  | n, p :: ps => (n, p.1, p.2) :: withLabels (n + 1) ps

/-- Labels from 0, as `reset_index()` creates. -/
def resetIndex (l : List (String × ℚ)) : List (Nat × String × ℚ) :=
  withLabels 0 l

/-- Line 87: `health_prop.loc[2] = [i, 0]` — if a row with label 2 exists it
is overwritten, otherwise a row labelled 2 is appended. -/
def setLoc2 (fr : List (Nat × String × ℚ)) (h : String) : List (Nat × String × ℚ) :=
  if fr.any (fun e => e.1 == 2) then
    fr.map (fun e => if e.1 == 2 then (2, h, 0) else e)
  else fr ++ [(2, h, 0)]

/-- The loop order of line 85. -/
def healthStates : List String := ["Fair", "Good", "Poor"]

/-- One iteration of the loop of lines 85-87: fill health state `i` only when
it is absent from the current frame (`all(i != health_prop[health])`). -/
def fillStep (fr : List (Nat × String × ℚ)) (i : String) : List (Nat × String × ℚ) :=
  if fr.all (fun e => e.2.1 != i) then setLoc2 fr i else fr

/-- Lines 85-87: run the fill loop over Fair, Good, Poor in order. -/
def fillMissing (fr : List (Nat × String × ℚ)) : List (Nat × String × ℚ) :=
  healthStates.foldl fillStep fr

/-- The categorical code of lines 89-90: `Categorical(_, [Good, Fair, Poor])`;
a value outside the three categories becomes NaN, which `sort_values` puts
last. -/
def healthCode : String → Nat
  | "Good" => 0
  | "Fair" => 1
  | "Poor" => 2
  | _ => 3

/-- The sort relation of line 90, on labelled frame rows. -/
def codeRel (a b : Nat × String × ℚ) : Prop :=
  healthCode a.2.1 ≤ healthCode b.2.1

instance : DecidableRel codeRel :=
  fun a b => inferInstanceAs (Decidable (healthCode a.2.1 ≤ healthCode b.2.1))

/-- Line 90: `sort_values(health)` by categorical code. -/
def sortHealth (fr : List (Nat × String × ℚ)) : List (Nat × String × ℚ) :=
  List.insertionSort codeRel fr

/-- The `health_prop` callback (lines 79-105): the (health, proportion) pairs
that become the bar chart's x and y sequences, in display order. -/
def health_prop (t : List Row) (b s : String) : List (String × ℚ) :=
  let df := filterSel t b s
  (sortHealth (fillMissing (resetIndex (healthPropBase df)))).map
    (fun e => (e.2.1, e.2.2))

/-- Lines 115-117: `df.groupby(steward).sum()[count_tree_id]` for one bucket,
the `count_tree_id_y` column after the merge. -/
def stewardTotal (df : List Row) (st : String) : Nat :=
  sumCounts (df.filter (fun r => r.steward == st))

/-- Line 119: the within-bucket proportion `round(x / y, 2)` of one merged
row. -/
def stewardP (df : List Row) (r : Row) : ℚ :=
  round2 ((r.count_tree_id : ℚ) / (stewardTotal df r.steward : ℚ))

/-- The (health, steward) pairs that index the pivots of lines 123-129;
`pivot` raises `ValueError` when they contain a duplicate. -/
def pivotKeys (df : List Row) : List (String × String) :=
  df.map (fun r => (r.health, r.steward))

/-- Line 121. -/
def stewardCats : List String := ["0", "1-2", "3-4", "4+"]

/-- One cell of the proportion pivot of lines 127-129 after
`reindex(columns, fill_value = 0)` and `fillna(0)`: the rounded within-bucket
proportion of the unique row with this (health, steward) pair, or `0` when no
such row exists. -/
def pivotCell (df : List Row) (h c : String) : ℚ :=
  match df.find? (fun r => r.health == h && r.steward == c) with
  | some r => stewardP df r
  | none => 0

/-- One cell of the raw-count hover pivot of lines 123-125. -/
def hoverCell (df : List Row) (h c : String) : Nat :=
  match df.find? (fun r => r.health == h && r.steward == c) with
  | some r => r.count_tree_id
  | none => 0

/-- The count behind one pivot cell: the total count over the rows carrying
the given health and steward values (at most one row under the
pre-aggregation invariant). -/
def cellCount (df : List Row) (h c : String) : Nat :=
  sumCounts (df.filter (fun r => r.health == h && r.steward == c))

/-- One row of the proportion pivot across the four canonical buckets
(`y` of one trace, lines 131-150). -/
def pivotRow (df : List Row) (h : String) : List ℚ :=
  stewardCats.map (pivotCell df h)

/-- One row of the hover pivot across the four canonical buckets
(`text` of one trace). -/
def hoverRow (df : List Row) (h : String) : List Nat :=
  stewardCats.map (hoverCell df h)

/-- One `go.Bar` trace of the stewardship figure. -/
structure Trace where
  name : String
  y : List ℚ
  text : List Nat
deriving Repr, DecidableEq

/-- The `stewardship` callback (lines 111-161). `none` models an uncaught
exception: the `ValueError` that `pivot` raises when the filtered frame has a
duplicate (health, steward) pair, or the `KeyError` that `.loc[1]`, `.loc[0]`
or `.loc[2]` raises when the pivoted frame has fewer than three rows. The
pivoted frame's rows are indexed by the distinct health values in ascending
order, so positions 0, 1, 2 hold the first, second and third distinct health
value. -/
def stewardship (t : List Row) (b s : String) : Option (List Trace) :=
  let df := filterSel t b s
  if (pivotKeys df).Nodup then
    let hs := uniqueSorted (df.map Row.health)
    match hs.get? 0, hs.get? 1, hs.get? 2 with
    | some h0, some h1, some h2 =>
      some [⟨"Good", pivotRow df h1, hoverRow df h1⟩,
            ⟨"Fair", pivotRow df h0, hoverRow df h0⟩,
            ⟨"Poor", pivotRow df h2, hoverRow df h2⟩]
    | _, _, _ => none
  else none

/-- The process state: the module-level table `nyctrees`, loaded once at
startup. Each callback reads it and builds derived frames (`df`,
`health_prop`, `steward_health`, `hover`); the in-place writes of lines 87,
89 and 119 target those derived frames, never the module-level table, so a
callback returns the state unchanged alongside its figure data. -/
structure AppState where
  nyctrees : List Row
deriving Repr, DecidableEq

/-- The `health_prop` callback as a state transformer: reads the table,
returns the figure data and the table state after the call. -/
def health_prop_callback (st : AppState) (b s : String) :
    AppState × List (String × ℚ) :=
  (⟨st.nyctrees⟩, health_prop st.nyctrees b s)

/-- The `stewardship` callback as a state transformer. -/
def stewardship_callback (st : AppState) (b s : String) :
    AppState × Option (List Trace) :=
  (⟨st.nyctrees⟩, stewardship st.nyctrees b s)

/-- The sum of the proportion column of a labelled frame: the total height of
the first view's bars. -/
def valSum (fr : List (Nat × String × ℚ)) : ℚ :=
  (fr.map (fun e => e.2.2)).sum

/-- The invariant carried through the fill loop: either every row labelled 2
holds a zero proportion, or all three health states are already present. -/
def frameInv (fr : List (Nat × String × ℚ)) : Prop :=
  (∀ e ∈ fr, e.1 = 2 → e.2.2 = 0) ∨
    (∀ i ∈ healthStates, ∃ e ∈ fr, e.2.1 = i)

/-- A sample table used to instantiate proved properties: pre-aggregated
counts for one (borough, species) pair with two health states present. -/
def tSample : List Row :=
  [⟨"Oak", "Queens", "Good", "0", 30⟩, ⟨"Oak", "Queens", "Fair", "1-2", 10⟩]

/-- A sample table whose only matching rows carry a single health state. -/
def tOnlyGood : List Row :=
  [⟨"Oak", "Queens", "Good", "0", 30⟩]

/-- A sample table where the borough `Queens` and the species `Oak` both
occur but the combination (`Queens`, `Oak`) matches no row. -/
def tDisjoint : List Row :=
  [⟨"Pine", "Queens", "Good", "0", 5⟩, ⟨"Oak", "Brooklyn", "Good", "0", 7⟩]

/-- A sample table with all three health states present for one selection,
spread over two steward buckets. -/
def tFull : List Row :=
  [⟨"Oak", "Queens", "Good", "0", 3⟩, ⟨"Oak", "Queens", "Fair", "0", 1⟩,
   ⟨"Oak", "Queens", "Poor", "1-2", 2⟩, ⟨"Oak", "Queens", "Good", "1-2", 6⟩]

/-- A sample raw fetch: one complete row and one row with a null species. -/
def rawComplete : RawRow :=
  ⟨some "red maple", some "Queens", some "Good", some "None", some 3⟩

/-- A raw row with a missing species field. -/
def rawIncomplete : RawRow :=
  ⟨none, some "Queens", some "Good", some "None", some 3⟩

/-! ### Order properties of the code-point comparison -/

theorem strLeAux_total (as : List Char) :
    ∀ bs, strLeAux as bs = true ∨ strLeAux bs as = true := by
  induction as with
  | nil => intro bs; left; rfl
  | cons a as ih =>
    intro bs
    cases bs with
    | nil => right; rfl
    | cons b bs =>
      rcases Nat.lt_trichotomy a.toNat b.toNat with h | h | h
      · left; simp [strLeAux, h]
      · have h1 : ¬ a.toNat < b.toNat := by omega
        have h2 : ¬ b.toNat < a.toNat := by omega
        rcases ih bs with hr | hr
        · left; simp [strLeAux, h1, h2, hr]
        · right; simp [strLeAux, h1, h2, hr]
      · right; simp [strLeAux, h]

theorem strLeAux_trans (as : List Char) :
    ∀ bs cs, strLeAux as bs = true → strLeAux bs cs = true →
      strLeAux as cs = true := by
  induction as with
  | nil => intro bs cs _ _; rfl
  | cons a as ih =>
    intro bs cs h1 h2
    cases bs with
    | nil => simp [strLeAux] at h1
    | cons b bs =>
      cases cs with
      | nil => simp [strLeAux] at h2
      | cons c cs =>
        rcases Nat.lt_trichotomy a.toNat b.toNat with hab | hab | hab
        · rcases Nat.lt_trichotomy b.toNat c.toNat with hbc | hbc | hbc
          · simp [strLeAux, show a.toNat < c.toNat by omega]
          · simp [strLeAux, show a.toNat < c.toNat by omega]
          · have hx : ¬ b.toNat < c.toNat := by omega
            simp [strLeAux, hx, hbc] at h2
        · have ha1 : ¬ a.toNat < b.toNat := by omega
          have ha2 : ¬ b.toNat < a.toNat := by omega
          simp only [strLeAux, if_neg ha1, if_neg ha2] at h1
          rcases Nat.lt_trichotomy b.toNat c.toNat with hbc | hbc | hbc
          · simp [strLeAux, show a.toNat < c.toNat by omega]
          · have hc1 : ¬ a.toNat < c.toNat := by omega
            have hc2 : ¬ c.toNat < a.toNat := by omega
            have hb1 : ¬ b.toNat < c.toNat := by omega
            have hb2 : ¬ c.toNat < b.toNat := by omega
            simp only [strLeAux, if_neg hb1, if_neg hb2] at h2
            simp only [strLeAux, if_neg hc1, if_neg hc2]
            exact ih bs cs h1 h2
          · have hx : ¬ b.toNat < c.toNat := by omega
            simp [strLeAux, hx, hbc] at h2
        · have hx : ¬ a.toNat < b.toNat := by omega
          simp [strLeAux, hx, hab] at h1

theorem strLeAux_antisymm (as : List Char) :
    ∀ bs, strLeAux as bs = true → strLeAux bs as = true → as = bs := by
  induction as with
  | nil =>
    intro bs _ h2
    cases bs with
    | nil => rfl
    | cons b bs => simp [strLeAux] at h2
  | cons a as ih =>
    intro bs h1 h2
    cases bs with
    | nil => simp [strLeAux] at h1
    | cons b bs =>
      rcases Nat.lt_trichotomy a.toNat b.toNat with hab | hab | hab
      · have hx : ¬ b.toNat < a.toNat := by omega
        simp [strLeAux, hx, hab] at h2
      · have h1a : ¬ a.toNat < b.toNat := by omega
        have h1b : ¬ b.toNat < a.toNat := by omega
        simp only [strLeAux, if_neg h1a, if_neg h1b] at h1 h2
        have hc : a = b := Char.ext (UInt32.toNat.inj hab)
        rw [hc, ih bs h1 h2]
      · have hx : ¬ a.toNat < b.toNat := by omega
        simp [strLeAux, hx, hab] at h1

instance : IsTotal String strLeRel :=
  ⟨fun a b => strLeAux_total a.data b.data⟩

instance : IsTrans String strLeRel :=
  ⟨fun a b c => strLeAux_trans a.data b.data c.data⟩

instance : IsAntisymm String strLeRel := by
  constructor
  intro a b h1 h2
  cases a with
  | mk as =>
    cases b with
    | mk bs => exact congrArg String.mk (strLeAux_antisymm as bs h1 h2)

/-! ### Basic facts about the embedded operations -/

/-- Two-decimal rounding moves a rational by at most 1/200. -/
theorem round2_err (q : ℚ) : |round2 q - q| ≤ 1 / 200 := by
  have h := abs_sub_round (100 * q)
  have h100 : round2 q - q = (((round (100 * q) : ℤ) : ℚ) - 100 * q) / 100 := by
    rw [round2]; ring
  rw [h100, abs_div, show |(100 : ℚ)| = 100 by norm_num, abs_sub_comm]
  linarith [h]

theorem round2_zero : round2 0 = 0 := by
  norm_num [round2]

/-- The sorted key list is a permutation of the deduplicated input. -/
theorem uniqueSorted_perm (l : List String) :
    List.Perm (uniqueSorted l) l.dedup :=
  List.perm_insertionSort strLeRel l.dedup

theorem uniqueSorted_nodup (l : List String) : (uniqueSorted l).Nodup :=
  ((uniqueSorted_perm l).nodup_iff).mpr l.nodup_dedup

theorem mem_uniqueSorted (l : List String) (x : String) :
    x ∈ uniqueSorted l ↔ x ∈ l := by
  rw [(uniqueSorted_perm l).mem_iff, List.mem_dedup]

theorem uniqueSorted_sorted (l : List String) :
    List.Sorted strLeRel (uniqueSorted l) :=
  List.sorted_insertionSort strLeRel l.dedup

/-- Summing an indicator over a duplicate-free list that contains the hit. -/
theorem sum_ite_mem (K : List String) (x : String) (c : Nat)
    (hnd : K.Nodup) (hx : x ∈ K) :
    (K.map fun h => if x = h then c else 0).sum = c := by
  induction K with
  | nil => cases hx
  | cons k K ih =>
    rcases List.mem_cons.mp hx with hk | hk
    · subst hk
      have hz : (K.map fun h => if x = h then c else 0).sum = 0 := by
        apply List.sum_eq_zero
        intro y hy
        rcases List.mem_map.mp hy with ⟨h, hh, hv⟩
        have : x ≠ h := fun he => (List.nodup_cons.mp hnd).1 (he ▸ hh)
        simp [← hv, this]
      simp [hz]
    · have hne : x ≠ k := fun he => (List.nodup_cons.mp hnd).1 (he ▸ hk)
      have := ih (List.nodup_cons.mp hnd).2 hk
      simp [hne, this]

/-- Map-sum additivity over `ℕ`. -/
theorem sum_map_add_nat (K : List String) (f g : String → Nat) :
    (K.map fun h => f h + g h).sum = (K.map f).sum + (K.map g).sum := by
  induction K with
  | nil => rfl
  | cons k K ih => simp [ih]; omega

/-- Partition of the total count of a frame by the distinct values of the
health column. -/
theorem healthSum_partition (df : List Row) (K : List String)
    (hnd : K.Nodup) (hcov : ∀ r ∈ df, r.health ∈ K) :
    (K.map (healthSum df)).sum = sumCounts df := by
  induction df with
  | nil =>
    have hz : (K.map (healthSum [])).sum = 0 := by
      apply List.sum_eq_zero
      intro x hx
      rcases List.mem_map.mp hx with ⟨h, _, hv⟩
      rw [← hv]; rfl
    rw [hz]; rfl
  | cons r df ih =>
    have hsplit : ∀ h, healthSum (r :: df) h =
        (if r.health = h then r.count_tree_id else 0) + healthSum df h := by
      intro h
      by_cases hr : r.health = h
      · simp [healthSum, sumCounts, List.filter_cons, hr]
      · have hb : (r.health == h) = false := by simp [hr]
        simp [healthSum, sumCounts, List.filter_cons, hb, hr]
    calc (K.map (healthSum (r :: df))).sum
        = (K.map fun h =>
            (if r.health = h then r.count_tree_id else 0) + healthSum df h).sum := by
          rw [List.map_congr_left (fun h _ => hsplit h)]
      _ = (K.map fun h => if r.health = h then r.count_tree_id else 0).sum +
            (K.map (healthSum df)).sum :=
          sum_map_add_nat K _ _
      _ = r.count_tree_id + sumCounts df := by
          rw [sum_ite_mem K r.health r.count_tree_id hnd (hcov r (List.mem_cons_self r df)),
            ih (fun x hx => hcov x (List.mem_cons_of_mem r hx))]
      _ = sumCounts (r :: df) := by simp [sumCounts]

/-! ### The labelled frame of the first callback -/

theorem withLabels_valSum (l : List (String × ℚ)) :
    ∀ n, valSum (withLabels n l) = (l.map Prod.snd).sum := by
  induction l with
  | nil => intro n; rfl
  | cons p l ih =>
    intro n
    simp [withLabels, valSum, List.map_cons, List.sum_cons] at ih ⊢
    exact ih (n + 1)

theorem withLabels_label_lt (l : List (String × ℚ)) :
    ∀ n e, e ∈ withLabels n l → e.1 < n + l.length := by
  induction l with
  | nil => intro n e he; cases he
  | cons p l ih =>
    intro n e he
    rcases List.mem_cons.mp he with h | h
    · rw [h]; simp
    · have := ih (n + 1) e h
      simp only [List.length_cons]
      omega

theorem withLabels_healths (l : List (String × ℚ)) :
    ∀ n, (withLabels n l).map (fun e => e.2.1) = l.map Prod.fst := by
  induction l with
  | nil => intro n; rfl
  | cons p l ih => intro n; simp [withLabels, ih (n + 1)]

theorem valSum_overwrite (fr : List (Nat × String × ℚ)) (h : String)
    (hz : ∀ e ∈ fr, e.1 = 2 → e.2.2 = 0) :
    valSum (fr.map (fun e => if e.1 == 2 then (2, h, 0) else e)) = valSum fr := by
  induction fr with
  | nil => rfl
  | cons a fr ih =>
    have htail := ih (fun e he => hz e (List.mem_cons_of_mem a he))
    simp only [valSum, List.map_cons, List.sum_cons] at htail ⊢
    by_cases ha : a.1 = 2
    · have hzero : a.2.2 = 0 := hz a (List.mem_cons_self a fr) ha
      rw [htail, if_pos (show (a.1 == 2) = true by simpa using ha)]
      simp [hzero]
    · rw [htail, if_neg (show ¬ (a.1 == 2) = true by simpa using ha)]

theorem setLoc2_valSum (fr : List (Nat × String × ℚ)) (h : String)
    (hz : ∀ e ∈ fr, e.1 = 2 → e.2.2 = 0) :
    valSum (setLoc2 fr h) = valSum fr := by
  unfold setLoc2
  by_cases hany : fr.any (fun e => e.1 == 2)
  · rw [if_pos hany]
    exact valSum_overwrite fr h hz
  · rw [if_neg hany]
    simp [valSum]

theorem setLoc2_zero2 (fr : List (Nat × String × ℚ)) (h : String)
    (hz : ∀ e ∈ fr, e.1 = 2 → e.2.2 = 0) :
    ∀ e ∈ setLoc2 fr h, e.1 = 2 → e.2.2 = 0 := by
  unfold setLoc2
  by_cases hany : fr.any (fun e => e.1 == 2)
  · rw [if_pos hany]
    intro e he h2
    rcases List.mem_map.mp he with ⟨a, ha, hv⟩
    by_cases ha2 : a.1 = 2
    · have hb : (a.1 == 2) = true := by simp [ha2]
      rw [← hv]; simp [hb]
    · have hb : (a.1 == 2) = false := by simp [ha2]
      rw [← hv] at h2 ⊢
      simp [hb] at h2 ⊢
      exact absurd h2 ha2
  · rw [if_neg hany]
    intro e he h2
    rcases List.mem_append.mp he with hl | hr
    · exact hz e hl h2
    · rcases List.mem_singleton.mp hr with rfl
      rfl

theorem fillStep_good (fr : List (Nat × String × ℚ)) (i : String)
    (hi : i ∈ healthStates) (hinv : frameInv fr) :
    valSum (fillStep fr i) = valSum fr ∧ frameInv (fillStep fr i) := by
  unfold fillStep
  by_cases hall : fr.all (fun e => e.2.1 != i)
  · rw [if_pos hall]
    rcases hinv with hz | hpres
    · exact ⟨setLoc2_valSum fr i hz, Or.inl (setLoc2_zero2 fr i hz)⟩
    · exfalso
      rcases hpres i hi with ⟨e, he, hei⟩
      have := List.all_eq_true.mp hall e he
      simp [hei] at this
  · rw [if_neg hall]
    exact ⟨rfl, hinv⟩

theorem fillMissing_valSum (fr : List (Nat × String × ℚ))
    (hinv : frameInv fr) : valSum (fillMissing fr) = valSum fr := by
  have h1 := fillStep_good fr "Fair" (by simp [healthStates]) hinv
  have h2 := fillStep_good (fillStep fr "Fair") "Good" (by simp [healthStates]) h1.2
  have h3 := fillStep_good (fillStep (fillStep fr "Fair") "Good") "Poor"
    (by simp [healthStates]) h2.2
  calc valSum (fillMissing fr)
      = valSum (fillStep (fillStep (fillStep fr "Fair") "Good") "Poor") := rfl
    _ = valSum fr := by rw [h3.1, h2.1, h1.1]

theorem sortHealth_valSum (fr : List (Nat × String × ℚ)) :
    valSum (sortHealth fr) = valSum fr :=
  List.Perm.sum_eq ((List.perm_insertionSort codeRel fr).map (fun e => e.2.2))

/-! ### Summation lemmas over `ℚ` -/

theorem sum_round2_err (K : List String) (p : String → ℚ) :
    |(K.map fun h => round2 (p h)).sum - (K.map p).sum| ≤
      (K.length : ℚ) * (1 / 200) := by
  induction K with
  | nil => simp
  | cons k K ih =>
    simp only [List.map_cons, List.sum_cons, List.length_cons]
    have h1 := round2_err (p k)
    calc |round2 (p k) + (K.map fun h => round2 (p h)).sum -
            (p k + (K.map p).sum)|
        = |(round2 (p k) - p k) +
            ((K.map fun h => round2 (p h)).sum - (K.map p).sum)| := by
          ring_nf
      _ ≤ |round2 (p k) - p k| +
            |(K.map fun h => round2 (p h)).sum - (K.map p).sum| := abs_add _ _
      _ ≤ 1 / 200 + (K.length : ℚ) * (1 / 200) := add_le_add h1 ih
      _ = ((K.length : ℚ) + 1) * (1 / 200) := by ring
      _ = (((K.length + 1 : ℕ)) : ℚ) * (1 / 200) := by push_cast; ring

theorem sum_map_div (K : List String) (g : String → Nat) (T : ℚ) :
    (K.map fun h => (g h : ℚ) / T).sum = (((K.map g).sum : ℕ) : ℚ) / T := by
  induction K with
  | nil => simp
  | cons k K ih =>
    simp only [List.map_cons, List.sum_cons]
    rw [ih]
    push_cast
    rw [add_div]

/-- Claim C1: for every (borough, species) selection with at least one
matching row, the health-state proportions output by the first view sum to
1.0 up to the error of rounding each of the (at most three) proportions to
two decimals, i.e. up to 3/200 = 0.015. Hypotheses `hdom` and `hcnt` are the
data-model invariants of the loaded table: every health value is one of
Fair/Good/Poor, and every pre-aggregated count is at least 1. -/
theorem health_prop_sum_within_rounding (t : List Row) (b s : String)
    (hne : filterSel t b s ≠ [])
    (hdom : ∀ r ∈ t, r.health ∈ healthStates)
    (hcnt : ∀ r ∈ t, 1 ≤ r.count_tree_id) :
    |((health_prop t b s).map Prod.snd).sum - 1| ≤ 3 / 200 := by
  set df := filterSel t b s with hdf
  set K := uniqueSorted (df.map Row.health) with hK
  set T := sumCounts df with hT
  have hdft : ∀ r ∈ df, r ∈ t := by
    intro r hr
    rw [hdf, filterSel] at hr
    exact (List.mem_filter.mp hr).1
  have hcov : ∀ r ∈ df, r.health ∈ K := by
    intro r hr
    rw [hK, mem_uniqueSorted]
    exact List.mem_map.mpr ⟨r, hr, rfl⟩
  have hKnd : K.Nodup := uniqueSorted_nodup _
  have hKsub : ∀ x ∈ K, x ∈ healthStates := by
    intro x hx
    rw [hK, mem_uniqueSorted] at hx
    rcases List.mem_map.mp hx with ⟨r, hr, hv⟩
    exact hv ▸ hdom r (hdft r hr)
  have hKlen : K.length ≤ 3 := by
    have := (List.subperm_of_subset hKnd hKsub).length_le
    simpa [healthStates] using this
  have hTpos : 0 < T := by
    rcases List.exists_mem_of_ne_nil df hne with ⟨r, hr⟩
    have h1 : 1 ≤ r.count_tree_id := hcnt r (hdft r hr)
    have h2 : r.count_tree_id ≤ T := by
      rw [hT, sumCounts]
      exact List.single_le_sum (fun x _ => Nat.zero_le x) _
        (List.mem_map.mpr ⟨r, hr, rfl⟩)
    omega
  have hbaselen : (healthPropBase df).length = K.length := by
    simp [healthPropBase, groupbyHealth, hK]
  have hbasefst : (healthPropBase df).map Prod.fst = K := by
    simp only [healthPropBase, groupbyHealth, List.map_map, hK]
    exact (List.map_congr_left (fun h _ => rfl)).trans (List.map_id _)
  have hbaseInv : frameInv (resetIndex (healthPropBase df)) := by
    by_cases hl : K.length ≤ 2
    · left
      intro e he h2
      exfalso
      have hlt := withLabels_label_lt (healthPropBase df) 0 e he
      rw [hbaselen] at hlt
      omega
    · right
      have h3 : K.length = 3 := by omega
      have hperm : List.Perm K healthStates := by
        apply (List.subperm_of_subset hKnd hKsub).perm_of_length_le
        simp [healthStates, h3]
      intro i hi
      have hiK : i ∈ K := hperm.mem_iff.mpr hi
      rw [← hbasefst] at hiK
      rw [← withLabels_healths (healthPropBase df) 0] at hiK
      rcases List.mem_map.mp hiK with ⟨e, he, hv⟩
      exact ⟨e, he, hv⟩
  have hout : ((health_prop t b s).map Prod.snd).sum
      = valSum (sortHealth (fillMissing (resetIndex (healthPropBase df)))) := by
    rw [health_prop, valSum, List.map_map]
    rfl
  have hvs : valSum (resetIndex (healthPropBase df))
      = (K.map fun h => round2 ((healthSum df h : ℚ) / (T : ℚ))).sum := by
    rw [resetIndex, withLabels_valSum]
    simp only [healthPropBase, groupbyHealth, List.map_map, hK, hT]
    exact congrArg List.sum (List.map_congr_left (fun h _ => rfl))
  have htrue : (K.map fun h => (healthSum df h : ℚ) / (T : ℚ)).sum = 1 := by
    rw [sum_map_div, healthSum_partition df K hKnd hcov]
    exact div_self (Nat.cast_ne_zero.mpr (by omega))
  rw [hout, sortHealth_valSum, fillMissing_valSum _ hbaseInv, hvs]
  have herr := sum_round2_err K (fun h => (healthSum df h : ℚ) / (T : ℚ))
  rw [htrue] at herr
  calc |(K.map fun h => round2 ((healthSum df h : ℚ) / (T : ℚ))).sum - 1|
      ≤ (K.length : ℚ) * (1 / 200) := herr
    _ ≤ 3 * (1 / 200) := by
        apply mul_le_mul_of_nonneg_right _ (by norm_num)
        exact_mod_cast hKlen
    _ = 3 / 200 := by norm_num

/-- Claim C1 witness: the summing property instantiated on a concrete table
and selection. -/
theorem health_prop_sum_within_rounding_witness :
    |((health_prop tSample "Queens" "Oak").map Prod.snd).sum - 1| ≤ 3 / 200 :=
  health_prop_sum_within_rounding tSample "Queens" "Oak"
    (by decide) (by decide) (by decide)

/-- Claim C5: on a selection whose matching rows carry Good=30, Fair=10 and
no Poor row, the first view outputs exactly Good=0.75, Fair=0.25, Poor=0.0
in the order Good, Fair, Poor. -/
theorem health_prop_example :
    health_prop tSample "Queens" "Oak"
      = [("Good", 0.75), ("Fair", 0.25), ("Poor", 0)] := by
  have h2 : groupbyHealth (filterSel tSample "Queens" "Oak")
      = [("Fair", 10), ("Good", 30)] := by decide
  have h3 : sumCounts (filterSel tSample "Queens" "Oak") = 40 := by decide
  have h1 : healthPropBase (filterSel tSample "Queens" "Oak")
      = [("Fair", round2 ((10 : ℚ) / 40)), ("Good", round2 ((30 : ℚ) / 40))] := by
    simp [healthPropBase, h2, h3]
  have hr1 : round2 ((10 : ℚ) / 40) = 0.25 := by norm_num [round2, round_eq]
  have hr2 : round2 ((30 : ℚ) / 40) = 0.75 := by norm_num [round2, round_eq]
  rw [health_prop, h1, hr1, hr2]
  simp [resetIndex, withLabels, fillMissing, healthStates, fillStep, setLoc2,
    sortHealth, List.insertionSort, List.orderedInsert, healthCode, codeRel]

/-- Claim C4 (code bug): the fill loop writes every missing health state to
the row labelled 2 (`health_prop.loc[2] = [i, 0]`), so when two states are
missing the second write overwrites the first. With only Good present, the
output lacks the Fair row entirely instead of reporting Fair=0 and Poor=0. -/
theorem health_prop_two_missing_drops_fair :
    health_prop tOnlyGood "Queens" "Oak" = [("Good", 1), ("Poor", 0)] ∧
      "Fair" ∉ (health_prop tOnlyGood "Queens" "Oak").map Prod.fst := by
  have heq : health_prop tOnlyGood "Queens" "Oak" = [("Good", 1), ("Poor", 0)] := by
    have h2 : groupbyHealth (filterSel tOnlyGood "Queens" "Oak")
        = [("Good", 30)] := by decide
    have h3 : sumCounts (filterSel tOnlyGood "Queens" "Oak") = 30 := by decide
    have h1 : healthPropBase (filterSel tOnlyGood "Queens" "Oak")
        = [("Good", round2 ((30 : ℚ) / 30))] := by
      simp [healthPropBase, h2, h3]
    have hr : round2 ((30 : ℚ) / 30) = 1 := by norm_num [round2, round_eq]
    rw [health_prop, h1, hr]
    simp [resetIndex, withLabels, fillMissing, healthStates, fillStep, setLoc2,
      sortHealth, List.insertionSort, List.orderedInsert, healthCode, codeRel]
  refine ⟨heq, ?_⟩
  rw [heq]
  decide

/-- Claim C3 counterexample: on a selection with no matching rows the
`stewardship` callback does not return a figure: the positional row lookup
`.loc[1]` on the empty pivoted frame raises `KeyError` (modelled by `none`),
contradicting the claim that both callbacks degrade to an empty chart. -/
theorem stewardship_empty_selection_raises :
    filterSel tDisjoint "Queens" "Oak" = [] ∧
      stewardship tDisjoint "Queens" "Oak" = none := by
  constructor
  · decide
  · rfl

/-- Claim C3 amended: on a selection with no matching rows, `health_prop`
returns a degenerate single-bar chart (one `Poor` bar of height 0, the relic
of the fill loop), while `stewardship` raises a `KeyError` from its
positional `.loc` lookups instead of returning a figure. -/
theorem empty_selection_behavior (t : List Row) (b s : String)
    (h : filterSel t b s = []) :
    health_prop t b s = [("Poor", 0)] ∧ stewardship t b s = none := by
  constructor
  · rw [health_prop, h]
    rfl
  · rw [stewardship, h]
    rfl

/-- Claim C3 amended witness: the empty-selection behaviour at a concrete
table and selection. -/
theorem empty_selection_behavior_witness :
    health_prop tDisjoint "Brooklyn" "Pine" = [("Poor", 0)] ∧
      stewardship tDisjoint "Brooklyn" "Pine" = none :=
  empty_selection_behavior tDisjoint "Brooklyn" "Pine" (by decide)

/-- Claim C6: the chained steward relabelling maps exactly the four raw
labels and leaves every other value unchanged. -/
theorem stewardRelabel_spec :
    stewardRelabel "None" = "0" ∧ stewardRelabel "1or2" = "1-2" ∧
    stewardRelabel "3or4" = "3-4" ∧ stewardRelabel "4orMore" = "4+" ∧
    ∀ s, s ∉ (["None", "1or2", "3or4", "4orMore"] : List String) →
      stewardRelabel s = s := by
  refine ⟨by decide, by decide, by decide, by decide, ?_⟩
  intro s hs
  simp only [List.mem_cons, List.not_mem_nil, or_false, not_or] at hs
  obtain ⟨h1, h2, h3, h4⟩ := hs
  simp [stewardRelabel, h1, h2, h3, h4]

/-- Claim C6 witness: a steward value outside the four raw labels passes
through unchanged. -/
theorem stewardRelabel_spec_witness : stewardRelabel "0" = "0" :=
  stewardRelabel_spec.2.2.2.2 "0" (by decide)

/-- Claim C7: `dropna` keeps exactly the rows with no null field — it equals
a filter by completeness, every surviving row is complete, every complete row
survives, every incomplete row is dropped — and the loaded table is built
from the surviving rows only. -/
theorem dropna_spec (raws : List RawRow) :
    dropna raws = raws.filter rowComplete ∧
    (∀ r ∈ dropna raws, rowComplete r = true) ∧
    (∀ r ∈ raws, rowComplete r = true → r ∈ dropna raws) ∧
    (∀ r, rowComplete r = false → r ∉ dropna raws) ∧
    loadTable raws = (dropna raws).map (fun r => normalizeRow (extract r)) := by
  have hfilter : dropna raws = raws.filter rowComplete := by
    induction raws with
    | nil => rfl
    | cons r rs ih =>
      by_cases h : rowComplete r <;> simp [dropna, List.filter_cons, h, ih]
  refine ⟨hfilter, ?_, ?_, ?_, rfl⟩
  · intro r hr
    rw [hfilter] at hr
    exact (List.mem_filter.mp hr).2
  · intro r hr hc
    rw [hfilter]
    exact List.mem_filter.mpr ⟨hr, hc⟩
  · intro r hc hmem
    rw [hfilter] at hmem
    have := (List.mem_filter.mp hmem).2
    rw [hc] at this
    cases this

/-- Claim C7 witness: on a concrete fetch, the complete row is kept and the
row with a null species is dropped. -/
theorem dropna_spec_witness :
    rawComplete ∈ dropna [rawComplete, rawIncomplete] ∧
      rawIncomplete ∉ dropna [rawComplete, rawIncomplete] :=
  ⟨(dropna_spec [rawComplete, rawIncomplete]).2.2.1 rawComplete
      (by decide) (by decide),
    (dropna_spec [rawComplete, rawIncomplete]).2.2.2.1 rawIncomplete
      (by decide)⟩

/-- Claim C8: title-casing followed by the exact-match replacement maps the
raw species name with embedded quotes to `Schubert Chokecherry`. -/
theorem normSpecies_schubert :
    normSpecies "\x27Schubert\x27 chokecherry" = "Schubert Chokecherry" := by
  decide

/-- Claim C9: neither callback mutates the loaded table: each one only reads
the module-level `nyctrees` and writes derived frames, so the table state
after a call is the state before it. -/
theorem callbacks_preserve_table (st : AppState) (b s : String) :
    (health_prop_callback st b s).1 = st ∧
      (stewardship_callback st b s).1 = st := by
  cases st
  exact ⟨rfl, rfl⟩

/-! ### The stewardship pivot -/

theorem filter_nil_of_find_none (df : List Row) (p : Row → Bool)
    (hf : df.find? p = none) : df.filter p = [] := by
  rw [List.filter_eq_nil_iff]
  exact List.find?_eq_none.mp hf

/-- Under duplicate-free (health, steward) keys, a successful `find?` on a
key predicate is the only match. -/
theorem filter_single_of_find_some (df : List Row) (h c : String) (r : Row)
    (hnd : (pivotKeys df).Nodup)
    (hf : df.find? (fun x => x.health == h && x.steward == c) = some r) :
    df.filter (fun x => x.health == h && x.steward == c) = [r] := by
  induction df with
  | nil => cases hf
  | cons a df ih =>
    simp only [pivotKeys, List.map_cons, List.nodup_cons] at hnd
    by_cases hpa : (a.health == h && a.steward == c) = true
    · have hfa : List.find? (fun x => x.health == h && x.steward == c) (a :: df)
          = some a := by simp [hpa]
      rw [hfa] at hf
      injection hf with hra
      subst hra
      have hfc : List.filter (fun x => x.health == h && x.steward == c) (a :: df)
          = a :: List.filter (fun x => x.health == h && x.steward == c) df := by
        simp [hpa]
      rw [hfc]
      have htail : df.filter (fun x => x.health == h && x.steward == c) = [] := by
        rw [List.filter_eq_nil_iff]
        intro x hx hpx
        simp only [Bool.and_eq_true, beq_iff_eq] at hpa hpx
        have hkey : (x.health, x.steward) ∈ df.map (fun r => (r.health, r.steward)) :=
          List.mem_map.mpr ⟨x, hx, rfl⟩
        rw [hpx.1, hpx.2, ← hpa.1, ← hpa.2] at hkey
        exact hnd.1 hkey
      rw [htail]
    · have hfa : List.find? (fun x => x.health == h && x.steward == c) (a :: df)
          = List.find? (fun x => x.health == h && x.steward == c) df := by
        simp [hpa]
      rw [hfa] at hf
      have hfc : List.filter (fun x => x.health == h && x.steward == c) (a :: df)
          = List.filter (fun x => x.health == h && x.steward == c) df := by
        simp [hpa]
      rw [hfc]
      exact ih hnd.2 hf

/-- Under duplicate-free keys, a pivot cell is the rounded quotient of the
cell's count by its bucket total (zero-filled cells included, since the
quotient of a zero count is zero and rounds to zero). -/
theorem pivotCell_eq (df : List Row) (h c : String)
    (hnd : (pivotKeys df).Nodup) :
    pivotCell df h c =
      round2 ((cellCount df h c : ℚ) / (stewardTotal df c : ℚ)) := by
  rw [pivotCell]
  cases hfind : df.find? (fun r => r.health == h && r.steward == c) with
  | none =>
    rw [cellCount, filter_nil_of_find_none _ _ hfind]
    simp [sumCounts, round2_zero]
  | some r =>
    have hp := List.find?_some hfind
    simp only [Bool.and_eq_true, beq_iff_eq] at hp
    rw [cellCount, filter_single_of_find_some df h c r hnd hfind]
    simp only [stewardP, hp.2]
    simp [sumCounts]

/-- Partition of a bucket's total count by the three health states. -/
theorem cellCount_partition (df : List Row) (c : String)
    (hdom : ∀ r ∈ df, r.health ∈ healthStates) :
    (healthStates.map fun h => cellCount df h c).sum = stewardTotal df c := by
  have hcomm : ∀ h, cellCount df h c =
      healthSum (df.filter (fun r => r.steward == c)) h := by
    intro h
    rw [cellCount, healthSum]
    congr 1
    rw [List.filter_filter]
  rw [List.map_congr_left (fun h _ => hcomm h)]
  rw [healthSum_partition (df.filter (fun r => r.steward == c)) healthStates
    (by decide) (fun r hr => hdom r (List.mem_filter.mp hr).1)]
  rfl

/-- Claim C2: under the pre-aggregation invariant (duplicate-free
(health, steward) keys among the matching rows) and the health-domain
invariant, within each of the four steward buckets the three health-state
cells of the second view are each matching row's count divided by the
bucket's total (rounded), so they sum to 1.0 up to 3/200 when the bucket has
a nonzero total, and are all zero for a bucket with no matching rows. -/
theorem stewardship_bucket_sums (t : List Row) (b s : String)
    (hnd : (pivotKeys (filterSel t b s)).Nodup)
    (hdom : ∀ r ∈ t, r.health ∈ healthStates) :
    ∀ c ∈ stewardCats,
      (stewardTotal (filterSel t b s) c ≠ 0 →
        |pivotCell (filterSel t b s) "Fair" c +
          pivotCell (filterSel t b s) "Good" c +
          pivotCell (filterSel t b s) "Poor" c - 1| ≤ 3 / 200) ∧
      ((filterSel t b s).filter (fun r => r.steward == c) = [] →
        pivotCell (filterSel t b s) "Fair" c = 0 ∧
        pivotCell (filterSel t b s) "Good" c = 0 ∧
        pivotCell (filterSel t b s) "Poor" c = 0) := by
  intro c hc
  set df := filterSel t b s with hdf
  have hdomdf : ∀ r ∈ df, r.health ∈ healthStates := by
    intro r hr
    rw [hdf, filterSel] at hr
    exact hdom r (List.mem_filter.mp hr).1
  constructor
  · intro hT
    have hcell : ∀ h, pivotCell df h c =
        round2 ((cellCount df h c : ℚ) / (stewardTotal df c : ℚ)) :=
      fun h => pivotCell_eq df h c hnd
    rw [hcell "Fair", hcell "Good", hcell "Poor"]
    have htrue : (healthStates.map fun h =>
        (cellCount df h c : ℚ) / (stewardTotal df c : ℚ)).sum = 1 := by
      rw [sum_map_div, cellCount_partition df c hdomdf]
      exact div_self (Nat.cast_ne_zero.mpr hT)
    have herr := sum_round2_err healthStates
      (fun h => (cellCount df h c : ℚ) / (stewardTotal df c : ℚ))
    rw [htrue] at herr
    have hexp : (healthStates.map fun h =>
        round2 ((cellCount df h c : ℚ) / (stewardTotal df c : ℚ))).sum =
        round2 ((cellCount df "Fair" c : ℚ) / (stewardTotal df c : ℚ)) +
        round2 ((cellCount df "Good" c : ℚ) / (stewardTotal df c : ℚ)) +
        round2 ((cellCount df "Poor" c : ℚ) / (stewardTotal df c : ℚ)) := by
      simp [healthStates]
      ring
    rw [hexp] at herr
    have hlen : ((healthStates.length : ℚ)) * (1 / 200) = 3 / 200 := by
      norm_num [healthStates]
    rw [hlen] at herr
    exact herr
  · intro hempty
    have hnone : ∀ h, df.find? (fun r => r.health == h && r.steward == c) = none := by
      intro h
      rw [List.find?_eq_none]
      intro x hx hpx
      simp only [Bool.and_eq_true, beq_iff_eq] at hpx
      have hmem : x ∈ df.filter (fun r => r.steward == c) :=
        List.mem_filter.mpr ⟨hx, by simp [hpx.2]⟩
      rw [hempty] at hmem
      cases hmem
    refine ⟨?_, ?_, ?_⟩ <;> simp [pivotCell, hnone]

/-- Claim C2 witness: the bucket sums at a concrete table — bucket `0` has
total count 4 and its cells sum to 1 within rounding; bucket `3-4` has no
matching rows and its `Fair` cell is zero. -/
theorem stewardship_bucket_sums_witness :
    (|pivotCell (filterSel tFull "Queens" "Oak") "Fair" "0" +
        pivotCell (filterSel tFull "Queens" "Oak") "Good" "0" +
        pivotCell (filterSel tFull "Queens" "Oak") "Poor" "0" - 1| ≤ 3 / 200) ∧
      pivotCell (filterSel tFull "Queens" "Oak") "Fair" "3-4" = 0 :=
  ⟨((stewardship_bucket_sums tFull "Queens" "Oak" (by decide) (by decide))
      "0" (by decide)).1 (by decide),
    (((stewardship_bucket_sums tFull "Queens" "Oak" (by decide) (by decide))
      "3-4" (by decide)).2 (by decide)).1⟩

/-- Claim C10: when the matching rows carry duplicate-free keys and include
all three health states, the pivoted frame's rows 0, 1, 2 are exactly the
Fair, Good and Poor series (ascending sort of the health index), so the
positional `.loc` lookups succeed and each trace carries the series its
label names; the callback returns a figure instead of raising. -/
theorem stewardship_all_states_ok (t : List Row) (b s : String)
    (hnd : (pivotKeys (filterSel t b s)).Nodup)
    (hdom : ∀ r ∈ t, r.health ∈ healthStates)
    (hF : "Fair" ∈ (filterSel t b s).map Row.health)
    (hG : "Good" ∈ (filterSel t b s).map Row.health)
    (hP : "Poor" ∈ (filterSel t b s).map Row.health) :
    stewardship t b s =
      some [⟨"Good", pivotRow (filterSel t b s) "Good",
              hoverRow (filterSel t b s) "Good"⟩,
            ⟨"Fair", pivotRow (filterSel t b s) "Fair",
              hoverRow (filterSel t b s) "Fair"⟩,
            ⟨"Poor", pivotRow (filterSel t b s) "Poor",
              hoverRow (filterSel t b s) "Poor"⟩] := by
  set df := filterSel t b s with hdf
  have hdomdf : ∀ r ∈ df, r.health ∈ healthStates := by
    intro r hr
    rw [hdf, filterSel] at hr
    exact hdom r (List.mem_filter.mp hr).1
  have hsub : ∀ x ∈ uniqueSorted (df.map Row.health), x ∈ healthStates := by
    intro x hx
    rw [mem_uniqueSorted] at hx
    rcases List.mem_map.mp hx with ⟨r, hr, hv⟩
    exact hv ▸ hdomdf r hr
  have hnd2 : (uniqueSorted (df.map Row.health)).Nodup := uniqueSorted_nodup _
  have hmem : ∀ x ∈ healthStates, x ∈ uniqueSorted (df.map Row.health) := by
    intro x hx
    rw [mem_uniqueSorted]
    rcases List.mem_cons.mp hx with h | hx
    · exact h ▸ hF
    rcases List.mem_cons.mp hx with h | hx
    · exact h ▸ hG
    rcases List.mem_cons.mp hx with h | hx
    · exact h ▸ hP
    · cases hx
  have hperm : List.Perm (uniqueSorted (df.map Row.health)) healthStates :=
    (List.subperm_of_subset hnd2 hsub).antisymm
      (List.subperm_of_subset (by decide) hmem)
  have heq : uniqueSorted (df.map Row.health) = healthStates :=
    List.eq_of_perm_of_sorted hperm (uniqueSorted_sorted _) (by decide)
  rw [stewardship, if_pos hnd, heq]
  rfl

/-- Claim C10 witness: the lookup success at a concrete table with all three
health states present over two steward buckets. -/
theorem stewardship_all_states_ok_witness :
    stewardship tFull "Queens" "Oak" =
      some [⟨"Good", pivotRow (filterSel tFull "Queens" "Oak") "Good",
              hoverRow (filterSel tFull "Queens" "Oak") "Good"⟩,
            ⟨"Fair", pivotRow (filterSel tFull "Queens" "Oak") "Fair",
              hoverRow (filterSel tFull "Queens" "Oak") "Fair"⟩,
            ⟨"Poor", pivotRow (filterSel tFull "Queens" "Oak") "Poor",
              hoverRow (filterSel tFull "Queens" "Oak") "Poor"⟩] :=
  stewardship_all_states_ok tFull "Queens" "Oak"
    (by decide) (by decide) (by decide) (by decide) (by decide)
